import Mathlib

/-!
Verification development for the ErrorRecordBook application.

The development shallowly embeds the parts of the code base that carry the
data-model and normalization contracts:

* `src/services/ai.ts` — `sanitizeMermaid` and the post-processing at the end
  of `analyzeQuestionImage` (array/object/other dispatch on the parsed JSON
  response, and the mermaid-code cleanup applied to every candidate);
* `src/App.tsx` (current revision) — `startAnalysis` (per-candidate record
  creation and the auto-title fallback chain), `loadQuestions` (presentation
  sort), `importData` (import control flow), the detail-view difficulty
  expression, and `buildShareHtml`'s difficulty expression;
* the record store (`src/services/db.ts` is not part of the sources at hand;
  its operations are modelled from the spec where needed).

JavaScript runtime values are modelled as follows: strings are `List Char`
(with a `String`-level wrapper where convenient), `undefined` is `Option.none`,
JSON values are the inductive `Json` below, and JS truthiness is made explicit
(`""`, `0`, `null`, `undefined` are falsy; every object and array is truthy).
-/

namespace ErrorRecordBook

/-! ### JavaScript string primitives used by `sanitizeMermaid` -/

/-- Whitespace characters removed by JavaScript's `String.prototype.trim`
(the common ASCII ones; exotic Unicode space code points are not modelled). -/
def jsWhite (c : Char) : Bool :=
  c == ' ' || c == '\n' || c == '\t' || c == '\r' || c == '\x0b' || c == '\x0c'

/-- JavaScript `String.prototype.trim` on a character list. -/
def trimChars (l : List Char) : List Char :=
  ((l.dropWhile jsWhite).reverse.dropWhile jsWhite).reverse

/-- The fenced-code-block marker, three backticks. -/
def fence : List Char := "```".data

/-- The pattern of the regex replace that drops the language tag. -/
def mermaidPat : List Char := "```mermaid".data

/-- Case-insensitive character comparison (the `i` regex flag). -/
def ciEq (a b : Char) : Bool := a.toLower == b.toLower

/-- Case-insensitive "is a prefix of" test for the regex match. -/
def ciPrefix : List Char → List Char → Bool
  | [], _ => true
  | _ :: _, [] => false
  | p :: ps, c :: cs => ciEq p c && ciPrefix ps cs

/-- Model of `s.replace(/<pat>/i, '')`: remove the first case-insensitive occurrence
of `pat`, if any. -/
def removeFirstCI (pat : List Char) : List Char → List Char
  | [] => []
  | c :: cs =>
    if ciPrefix pat (c :: cs) then (c :: cs).drop pat.length
    else c :: removeFirstCI pat cs

/-- Model of `s.replace(/```/g, '')`: remove every (non-overlapping, left-to-right)
occurrence of the three-backtick fence. -/
def stripFences : List Char → List Char
  | [] => []
  | c :: cs =>
    if fence.isPrefixOf (c :: cs) then
      -- a match consumes the three matched characters; on a match `cs` has
      -- at least two characters, so the remaining branches are unreachable
      match cs with
      | _ :: _ :: rest => stripFences rest
      | [_] => []
      | [] => []
    else c :: stripFences cs

/-- Embedding of `sanitizeMermaid` from `src/services/ai.ts`:

```
function sanitizeMermaid(code: string | undefined): string \x7b
  if (!code) return '';
  let cleaned = code.trim();
  if (cleaned.startsWith('```')) \x7b
    cleaned = cleaned
      .replace(/```mermaid/i, '')
      .replace(/```/g, '')
      .trim();
  \x7d
  return cleaned;
\x7d
```

`none` models an `undefined` argument; `!code` is additionally true for the
empty string. -/
def sanitizeMermaid (code : Option (List Char)) : List Char :=
  match code with
  | none => []
  | some l =>
    if l.isEmpty then []
    else
      let cleaned := trimChars l
      if fence.isPrefixOf cleaned then
        trimChars (stripFences (removeFirstCI mermaidPat cleaned))
      else cleaned

/-- The same `sanitizeMermaid`, at the `String` level. -/
def sanitizeMermaidStr (code : Option String) : String :=
  ⟨sanitizeMermaid (code.map String.data)⟩

/-! ### A model of parsed JSON values

The raw AI response is `JSON.parse`d into an untyped value; objects are
modelled as association lists of fields in insertion order (JavaScript
objects have unique keys, and later spreads overwrite in place). -/

inductive Json where
  | null : Json
  | bool (b : Bool) : Json
  | num (n : Int) : Json
  | str (s : String) : Json
  | arr (elems : List Json) : Json
  | obj (fields : List (String × Json)) : Json

/-- JavaScript truthiness of a JSON value (`NaN` is not modelled). -/
def Json.truthy : Json → Bool
  | .null => false
  | .bool b => b
  | .num n => n != 0
  | .str s => s != ""
  | .arr _ => true
  | .obj _ => true

/-- Property access `j.k` (and `j?.k`): defined only on objects, first
matching key; `none` models `undefined`. -/
def Json.getField (j : Json) (k : String) : Option Json :=
  match j with
  | .obj fields => fields.lookup k
  | _ => none

/-- The fields contributed by an object spread `\x7b...j\x7d`. Spreading
`null`, `undefined`, numbers or booleans contributes nothing; spreading a
string (which would contribute index keys) is not modelled and the theorems
below do not depend on that case. -/
def Json.spreadFields : Json → List (String × Json)
  | .obj fields => fields
  | _ => []

/-- Overwrite-or-append of a key, as an object literal
`\x7b...fields, k: v\x7d` behaves: an existing key keeps its position and
takes the new value, an absent key is appended at the end. -/
def setField : List (String × Json) → String → Json → List (String × Json)
  | [], k, v => [(k, v)]
  | (k', v') :: rest, k, v =>
    if k' == k then (k, v) :: rest else (k', v') :: setField rest k v

/-- The string content of an optional JSON value, when it is a string
(`sanitizeMermaid` is only ever applied to a string or `undefined`; the
calls below restrict to that case). -/
def asStrOpt : Option Json → Option String
  | some (.str s) => some s
  | _ => none

/-! ### Post-processing at the end of `analyzeQuestionImage` -/

/-- Embedding of the candidate extraction in `analyzeQuestionImage`:

```
const analyses = Array.isArray(parsed)
  ? parsed
  : (parsed && typeof parsed === 'object' ? [parsed] : []);
```

An array contributes its elements, any (even empty) object contributes
itself, and everything else — including `null`, whose `typeof` is
`'object'` but which is falsy — contributes nothing. -/
def candidatesOfParsed : Json → List Json
  | .arr elems => elems
  | .obj fields => [.obj fields]
  | _ => []

/-- Embedding of the per-candidate map in `analyzeQuestionImage`:

```
(item) => (\x7b
  ...item,
  logicEngine: \x7b
    ...item.logicEngine,
    mermaidCode: sanitizeMermaid(item.logicEngine?.mermaidCode),
  \x7d,
\x7d)
```
-/
def postprocessCandidate (item : Json) : Json :=
  let le := item.getField "logicEngine"
  let mc := match le with
    | some j => j.getField "mermaidCode"
    | none => none
  let leFields := match le with
    | some j => j.spreadFields
    | none => []
  .obj (setField item.spreadFields "logicEngine"
    (.obj (setField leFields "mermaidCode" (.str (sanitizeMermaidStr (asStrOpt mc))))))

/-- The full post-processing of the parsed response in
`analyzeQuestionImage` (`src/services/ai.ts`, after `JSON.parse`). -/
def analyzeQuestionImagePost (parsed : Json) : List Json :=
  (candidatesOfParsed parsed).map postprocessCandidate

/-! ### JavaScript boolean operators on possibly-undefined values -/

/-- JavaScript `a && b` on possibly-`undefined` JSON values (`none` is
`undefined`): a falsy left operand is returned as-is, otherwise the right
operand. -/
def jsAnd (a b : Option Json) : Option Json :=
  match a with
  | none => none
  | some j => if j.truthy then b else some j

/-- JavaScript `a || b` on possibly-`undefined` JSON values: a truthy left
operand is returned, otherwise the right operand. -/
def jsOr (a b : Option Json) : Option Json :=
  match a with
  | none => b
  | some j => if j.truthy then some j else b

/-- JavaScript indexing `j[i]` for a non-negative index: array element,
character of a string, `undefined` otherwise (numeric keys on plain objects
are not modelled; the response schema never produces them). -/
def jsIndex (j : Json) (i : Nat) : Option Json :=
  match j with
  | .arr elems => elems[i]?
  | .str s => (s.data[i]?).map (fun c => .str ⟨[c]⟩)
  | _ => none

/-! ### The App layer: subjects, records, and the record store

`src/services/db.ts` itself is not among the sources; the store operations
(`saveQuestion`, `getQuestionsBySubject`, `deleteQuestion`,
`clearAllQuestions`, `importQuestions`) are modelled from the spec, as
noted on each definition. The `App.tsx` functions built on top of them
(`startAnalysis`, `loadQuestions`, `importData`, the difficulty
expressions) are embedded from the source. -/

/-- The closed subject enum. -/
inductive Subject where
  | Chinese : Subject
  | Math : Subject
  | English : Subject
  | Physics : Subject
deriving DecidableEq, BEq

/-- A question record as constructed by `startAnalysis`: `title` is whatever
value the fallback chain produced (a string under the response schema),
`tags` is `analysis.tags` and may be `undefined`, `analysis` is the raw
normalized candidate. -/
structure WrongQuestion where
  subject : Subject
  title : Json
  tags : Option Json
  image : String
  analysis : Json
  createdAt : Nat

/-- Modelled from the spec: the record store state behind `services/db`
(an object store with auto-increment keys). `nextId` is the next key to be
assigned; the spec requires keys strictly greater than any previously
assigned key, surviving deletions. -/
structure Store where
  nextId : Nat
  records : List (Nat × WrongQuestion)

/-- The store before any save: no records, first key 1. -/
def Store.empty : Store := ⟨1, []⟩

/-- Modelled from the spec: `save` assigns a new integer key strictly
greater than any previously assigned key (monotonic auto-increment that
survives deletions) and appends the record; returns the assigned id. -/
def saveQuestion (s : Store) (q : WrongQuestion) : Store × Nat :=
  (⟨s.nextId + 1, s.records ++ [(s.nextId, q)]⟩, s.nextId)

/-- Modelled from the spec: `deleteById` removes the record with the given
id (idempotent) and does not affect key assignment. -/
def deleteQuestion (s : Store) (i : Nat) : Store :=
  ⟨s.nextId, s.records.filter (fun p => p.1 != i)⟩

/-- Modelled from the spec: `getAll` returns every record, in no
guaranteed order (modelled as insertion order). -/
def getAllQuestions (s : Store) : List WrongQuestion :=
  s.records.map Prod.snd

/-- Modelled from the spec: `getBySubject` returns exactly the records
whose subject matches. -/
def getQuestionsBySubject (s : Store) (subject : Subject) : List WrongQuestion :=
  (s.records.filter (fun p => p.2.subject == subject)).map Prod.snd

/-- Modelled from the spec: `clear` removes all records (post-clear key
sequencing is implementation-defined; this model continues the sequence). -/
def clearAllQuestions (s : Store) : Store :=
  ⟨s.nextId, []⟩

/-- Modelled from the spec: coercion of one import-file element into a
record (each element is "at least shaped like" a record; any `id` field is
discarded, a new one is assigned on save). Field extraction is best-effort
and irrelevant to the import control-flow claims. -/
def jsonToRecord (j : Json) : WrongQuestion where
  subject :=
    match j.getField "subject" with
    | some (.str "Chinese") => .Chinese
    | some (.str "Math") => .Math
    | some (.str "English") => .English
    | some (.str "Physics") => .Physics
    | _ => .Chinese
  title := (j.getField "title").getD .null
  tags := j.getField "tags"
  image :=
    match j.getField "image" with
    | some (.str s) => s
    | _ => ""
  analysis := (j.getField "analysis").getD .null
  createdAt :=
    match j.getField "createdAt" with
    | some (.num n) => n.toNat
    | _ => 0

/-- Modelled from the spec: `importMany` iterates a sequence of records and
persists each as a brand-new record; a payload that is not a sequence fails
the whole operation before any write. -/
def importQuestions (s : Store) (data : Json) : Except Unit Store :=
  match data with
  | .arr items =>
    .ok (items.foldl (fun st it => (saveQuestion st (jsonToRecord it)).1) s)
  | _ => .error ()

/-- Outcome of the import flow as surfaced to the user. -/
inductive ImportOutcome where
  | success : ImportOutcome
  | malformedPayload : ImportOutcome
deriving DecidableEq

/-- Embedding of `importData` from `App.tsx`: `JSON.parse` the file text
(`none` models a parse failure) and hand the result to `importQuestions`;
any failure is caught and surfaced as the import-failure message, leaving
the store untouched. -/
def importData (s : Store) (fileContent : Option Json) : Store × ImportOutcome :=
  match fileContent with
  | none => (s, .malformedPayload)
  | some data =>
    match importQuestions s data with
    | .ok s' => (s', .success)
    | .error _ => (s, .malformedPayload)

/-! ### `startAnalysis` (current `App.tsx` revision) -/

/-- Embedding of the auto-title chain in `startAnalysis`:

```
const autoTitle =
  (analysis.knowledgeMap && analysis.knowledgeMap.primaryPoint) ||
  (analysis.tags && analysis.tags[0]) ||
  analysis.title;
```
-/
def autoTitle (analysis : Json) : Option Json :=
  jsOr
    (jsOr
      (jsAnd (analysis.getField "knowledgeMap")
        ((analysis.getField "knowledgeMap").bind (fun km => km.getField "primaryPoint")))
      (jsAnd (analysis.getField "tags")
        ((analysis.getField "tags").bind (fun t => jsIndex t 0))))
    (analysis.getField "title")

/-- The record title, `autoTitle || '未命名错题'`. The final literal is
truthy, so the chain always yields a value. -/
def recordTitle (analysis : Json) : Json :=
  (jsOr (autoTitle analysis) (some (.str "未命名错题"))).getD .null

/-- The record built for one candidate inside `startAnalysis`'s loop
(`id` is assigned by the store on save; `now` models `Date.now()`). -/
def mkQuestion (subject : Subject) (image : String) (now : Nat)
    (analysis : Json) : WrongQuestion where
  subject := subject
  title := recordTitle analysis
  tags := analysis.getField "tags"
  image := image
  analysis := analysis
  createdAt := now

/-- Outcome of `startAnalysis` as surfaced to the user. -/
inductive AnalysisOutcome where
  | emptyAnalysis : AnalysisOutcome
  | saved (count : Nat) : AnalysisOutcome
deriving DecidableEq

/-- Embedding of `startAnalysis` from `App.tsx`, after
`analyzeQuestionImage` returned `analyses`: zero candidates are reported as
the advisory empty-analysis message with no record created; otherwise one
record is saved per candidate, in order. -/
def startAnalysis (s : Store) (subject : Subject) (image : String)
    (now : Nat) (analyses : List Json) : Store × AnalysisOutcome :=
  if analyses.length = 0 then (s, .emptyAnalysis)
  else
    (analyses.foldl
      (fun st a => (saveQuestion st (mkQuestion subject image now a)).1) s,
     .saved analyses.length)

/-! ### Presentation sort and the difficulty expressions -/

/-- The presentation order: newest first. -/
def createdDesc (a b : WrongQuestion) : Prop :=
  b.createdAt ≤ a.createdAt

instance : DecidableRel createdDesc := fun a b =>
  inferInstanceAs (Decidable (b.createdAt ≤ a.createdAt))

instance : IsTotal WrongQuestion createdDesc :=
  ⟨fun a b => Nat.le_total b.createdAt a.createdAt⟩

instance : IsTrans WrongQuestion createdDesc :=
  ⟨fun _ _ _ hab hbc => Nat.le_trans hbc hab⟩

/-- Embedding of `loadQuestions` from `App.tsx`:
`data.sort((a, b) => b.createdAt - a.createdAt)` — the subject's records,
sorted by `createdAt` descending. -/
def loadQuestions (s : Store) (subject : Subject) : List WrongQuestion :=
  (getQuestionsBySubject s subject).insertionSort createdDesc

/-- Embedding of the detail-view difficulty expression in `App.tsx`:
`analysis.logicEngine?.difficulty || analysis.difficulty || 3`. -/
def detailDifficulty (analysis : Json) : Json :=
  (jsOr
    (jsOr ((analysis.getField "logicEngine").bind (fun le => le.getField "difficulty"))
      (analysis.getField "difficulty"))
    (some (.num 3))).getD .null

/-- Embedding of the difficulty binding in `buildShareHtml`:
`question.analysis.logicEngine?.difficulty || 0`. -/
def shareDifficulty (analysis : Json) : Json :=
  (jsOr ((analysis.getField "logicEngine").bind (fun le => le.getField "difficulty"))
    (some (.num 0))).getD .null

/-! ### Specification-side definitions

The following definitions transcribe claims of the specification (not the
code); the theorems below compare the embedded code against them. -/

/-- Test for a JSON array (the import contract's "sequence"). -/
def Json.isArr : Json → Bool
  | .arr _ => true
  | _ => false

/-- Specification-side helper: the first entry of the list that is defined
and non-empty, else the default. -/
def firstNonEmpty : List (Option String) → String → String
  | [], d => d
  | none :: rest, d => firstNonEmpty rest d
  | some s :: rest, d => if s = "" then firstNonEmpty rest d else s

/-- Specification side of the title precedence: `knowledgeMap.primaryPoint`
if defined and non-empty, else the first element of `tags`, else the
candidate's `title`, else the fixed untitled literal. -/
def specTitle (primaryPoint tag0 title : Option String) : String :=
  firstNonEmpty [primaryPoint, tag0, title] "未命名错题"

/-- Specification side of the difficulty claim: `logicEngine.difficulty` if
defined, else the flat `difficulty` if defined, else 3, clamped to the
integer range 1–5. -/
def specDifficulty (leDiff flat : Option Int) : Int :=
  max 1 (min 5 (leDiff.getD (flat.getD 3)))

/-- Specification-side helper for the amended difficulty statements: a
defined non-zero value, else the default. -/
def nonZeroOr (o : Option Int) (d : Int) : Int :=
  match o with
  | some n => if n = 0 then d else n
  | none => d

/-- Amended specification of the detail-view difficulty: the chain skips
values that are undefined or 0 and applies no clamping. -/
def amendedDetailDifficulty (leDiff flat : Option Int) : Int :=
  nonZeroOr leDiff (nonZeroOr flat 3)

/-- Amended specification of the share-view difficulty: only
`logicEngine.difficulty` is consulted, the default is 0, no clamping. -/
def amendedShareDifficulty (leDiff : Option Int) : Int :=
  nonZeroOr leDiff 0

/-- An analysis value carrying the given difficulty fields: an optional
`logicEngine.difficulty` and an optional flat legacy `difficulty`. -/
def mkDiffObj (leDiff flat : Option Int) : Json :=
  Json.obj
    ((match leDiff with
      | some d => [("logicEngine", Json.obj [("difficulty", Json.num d)])]
      | none => []) ++
     (match flat with
      | some f => [("difficulty", Json.num f)]
      | none => []))

/-- A right-nested fallback chain of optional strings under JavaScript
`||`, ending in a default literal; the title chain is shown equal to this
form. -/
def strChain : List (Option String) → String → Option Json
  | [], d => some (Json.str d)
  | o :: rest, d => jsOr (o.map Json.str) (strChain rest d)

/-- A concrete candidate with a legacy flat field and a fenced mermaid
code, used to instantiate the frame theorems. -/
def exampleCandidate : Json :=
  Json.obj
    [("studentAnswer", Json.str "x=2"),
     ("logicEngine", Json.obj
       [("difficulty", Json.num 4),
        ("mermaidCode", Json.str "```mermaid\nflowchart TD\n```")])]

/-! ### Operation traces against the store (for the id-monotonicity claim) -/

/-- One store operation of a `save`/`deleteById` trace (no `clear`). -/
inductive StoreOp where
  | save (q : WrongQuestion) : StoreOp
  | deleteById (i : Nat) : StoreOp

/-- Run one operation; a `save` also reports the id it returned. -/
def runOp (s : Store) : StoreOp → Store × Option Nat
  | .save q => ((saveQuestion s q).1, some (saveQuestion s q).2)
  | .deleteById i => (deleteQuestion s i, none)

/-- Run a trace of operations, collecting the ids returned by the saves in
order. -/
def runOps : Store → List StoreOp → Store × List Nat
  | s, [] => (s, [])
  | s, op :: ops =>
    ((runOps (runOp s op).1 ops).1,
     (runOp s op).2.toList ++ (runOps (runOp s op).1 ops).2)

/-- The ids returned by the saves of a trace. -/
def savedIds (s : Store) (ops : List StoreOp) : List Nat :=
  (runOps s ops).2

/-! ### Concrete records for the query scenario -/

/-- A minimal Math record with the given creation time. -/
def exampleMathRecord (t : Nat) : WrongQuestion :=
  { subject := .Math
    title := .str "示例错题"
    tags := none
    image := "data:image/jpeg;base64,AAAA"
    analysis := .null
    createdAt := t }

/-- Three Math records saved with `createdAt` 100, 300, 200, in that
order. -/
def exampleStore : Store :=
  (saveQuestion
    (saveQuestion
      (saveQuestion Store.empty (exampleMathRecord 100)).1
      (exampleMathRecord 300)).1
    (exampleMathRecord 200)).1

/-! ## Auxiliary lemmas -/

theorem dropWhile_isSuffix (p : Char → Bool) (l : List Char) :
    l.dropWhile p <:+ l := by
  induction l with
  | nil => simp
  | cons c cs ih =>
    by_cases h : p c
    · simpa [List.dropWhile, h] using ih.trans (List.suffix_cons c cs)
    · simp [List.dropWhile, h]

theorem trimChars_isInfix (l : List Char) : trimChars l <:+: l := by
  unfold trimChars
  have h1 : (l.dropWhile jsWhite).reverse.dropWhile jsWhite <:+
      (l.dropWhile jsWhite).reverse := dropWhile_isSuffix _ _
  have h2 : ((l.dropWhile jsWhite).reverse.dropWhile jsWhite).reverse <+:
      l.dropWhile jsWhite :=
    List.reverse_suffix.mp (by simpa using h1)
  exact h2.isInfix.trans (dropWhile_isSuffix jsWhite l).isInfix

theorem lookup_setField_self (fields : List (String × Json)) (k : String)
    (v : Json) : (setField fields k v).lookup k = some v := by
  induction fields with
  | nil => simp [setField, List.lookup]
  | cons p rest ih =>
    obtain ⟨k', v'⟩ := p
    by_cases h : k' = k
    · subst h
      simp [setField, List.lookup]
    · have hb : (k' == k) = false := beq_eq_false_iff_ne.mpr h
      have hb' : (k == k') = false := beq_eq_false_iff_ne.mpr (Ne.symm h)
      simp [setField, hb, hb', List.lookup, ih]

theorem lookup_setField_ne (fields : List (String × Json)) (k k' : String)
    (v : Json) (h : k' ≠ k) :
    (setField fields k v).lookup k' = fields.lookup k' := by
  have hk : (k' == k) = false := beq_eq_false_iff_ne.mpr h
  induction fields with
  | nil => simp [setField, List.lookup, hk]
  | cons p rest ih =>
    obtain ⟨k₀, v₀⟩ := p
    by_cases h0 : k₀ = k
    · subst h0
      simp [setField, List.lookup, hk]
    · have hb0 : (k₀ == k) = false := beq_eq_false_iff_ne.mpr h0
      by_cases h1 : k' = k₀
      · subst h1
        simp [setField, hb0, List.lookup]
      · have hb1 : (k' == k₀) = false := beq_eq_false_iff_ne.mpr h1
        simp [setField, hb0, List.lookup, hb1, ih]

/-! ## Claim C3 — mermaid sanitization -/

/-- C3: `sanitizeMermaid` maps the fenced example to its unfenced body;
any input without a fence marker comes back merely trimmed; an absent or
empty code yields the empty string. -/
theorem sanitizeMermaid_spec :
    sanitizeMermaidStr (some "```mermaid\nflowchart TD\nA-->B\n```") =
      "flowchart TD\nA-->B" ∧
    (∀ l : List Char, ¬ (fence <:+: l) →
      sanitizeMermaid (some l) = trimChars l) ∧
    sanitizeMermaidStr none = "" ∧
    sanitizeMermaidStr (some "") = "" := by
  refine ⟨by decide, ?_, rfl, rfl⟩
  intro l h
  by_cases hl : l.isEmpty
  · have : l = [] := by simpa using hl
    subst this
    rfl
  · have hpre : fence.isPrefixOf (trimChars l) = false := by
      by_contra hcon
      have : fence.isPrefixOf (trimChars l) = true := by
        simpa using hcon
      exact h ((List.isPrefixOf_iff_prefix.mp this).isInfix.trans
        (trimChars_isInfix l))
    simp [sanitizeMermaid, hl, hpre]

/-- Witness for C3's universally quantified part at a fence-free input. -/
theorem sanitizeMermaid_spec_witness :
    sanitizeMermaid (some "flowchart TD".data) = trimChars "flowchart TD".data :=
  sanitizeMermaid_spec.2.1 "flowchart TD".data (by decide)

/-! ## Claim C1 — normalization totality -/

/-- C1 counterexample: the single-object payload `\x7b\x7d` is normalized
to exactly one candidate whose canonical fields other than
`logicEngine.mermaidCode` are all missing — the post-processing of
`analyzeQuestionImage` does not make them defined. -/
theorem normalization_not_total_counterexample :
    analyzeQuestionImagePost (Json.obj []) =
      [Json.obj [("logicEngine", Json.obj [("mermaidCode", Json.str "")])]] ∧
    (postprocessCandidate (Json.obj [])).getField "questionText" = none ∧
    (postprocessCandidate (Json.obj [])).getField "comparison" = none ∧
    (postprocessCandidate (Json.obj [])).getField "isCorrect" = none ∧
    (postprocessCandidate (Json.obj [])).getField "solution" = none ∧
    (postprocessCandidate (Json.obj [])).getField "errorRoot" = none ∧
    (postprocessCandidate (Json.obj [])).getField "knowledgeMap" = none ∧
    (postprocessCandidate (Json.obj [])).getField "masteryLevel" = none :=
  ⟨rfl, rfl, rfl, rfl, rfl, rfl, rfl, rfl⟩

/-- C1 as amended: the post-processing guarantees defined-ness only for
`logicEngine.mermaidCode` — for every object candidate (whose
`logicEngine?.mermaidCode`, when present, is a string, as the response
schema requires), the result's `logicEngine` is an object whose
`mermaidCode` is a defined string, while every other top-level field is
passed through unchanged and may remain missing. -/
theorem postprocess_logicEngine_totality (fields : List (String × Json))
    (_hmc : asStrOpt (((Json.obj fields).getField "logicEngine").bind
        (fun le => le.getField "mermaidCode")) = none →
      ((Json.obj fields).getField "logicEngine").bind
        (fun le => le.getField "mermaidCode") = none) :
    (∃ lef, (postprocessCandidate (Json.obj fields)).getField "logicEngine" =
        some (Json.obj lef) ∧
      ∃ s, lef.lookup "mermaidCode" = some (Json.str s)) ∧
    (∀ k, k ≠ "logicEngine" →
      (postprocessCandidate (Json.obj fields)).getField k =
        (Json.obj fields).getField k) := by
  have hshape : ∃ lef s, postprocessCandidate (Json.obj fields) =
      Json.obj (setField fields "logicEngine"
        (Json.obj (setField lef "mermaidCode" (Json.str s)))) :=
    ⟨_, _, rfl⟩
  obtain ⟨lef, s, hshape⟩ := hshape
  rw [hshape]
  constructor
  · refine ⟨setField lef "mermaidCode" (Json.str s), ?_, s, ?_⟩
    · simp only [Json.getField]
      exact lookup_setField_self _ _ _
    · exact lookup_setField_self _ _ _
  · intro k hk
    simp only [Json.getField]
    exact lookup_setField_ne _ _ _ _ hk

/-- Witness for C1's amended statement on a one-field candidate. -/
theorem postprocess_logicEngine_totality_witness :
    (postprocessCandidate
        (Json.obj [("questionText", Json.str "题目")])).getField "questionText" =
      some (Json.str "题目") := by
  have h := postprocess_logicEngine_totality
    [("questionText", Json.str "题目")] (fun _ => rfl)
  exact (h.2 "questionText" (by decide)).trans rfl

/-! ## Claim C2 — empty-payload handling -/

/-- C2 counterexample: the payload `\x7b\x7d` (an object with no usable
fields) yields one candidate, not zero. -/
theorem empty_object_payload_one_candidate :
    candidatesOfParsed (Json.obj []) = [Json.obj []] ∧
    (candidatesOfParsed (Json.obj [])).length ≠ 0 :=
  ⟨rfl, by decide⟩

/-- C2 as amended: `[]` and `null` yield zero candidates (and zero
candidates make `startAnalysis` report the advisory empty-analysis outcome
with the store untouched); an array yields one candidate per element; any
object — even `\x7b\x7d` — yields exactly one candidate; any other value
yields zero. -/
theorem candidatesOfParsed_spec :
    candidatesOfParsed (Json.arr []) = [] ∧
    candidatesOfParsed Json.null = [] ∧
    (∀ elems, candidatesOfParsed (Json.arr elems) = elems) ∧
    (∀ fields, candidatesOfParsed (Json.obj fields) = [Json.obj fields]) ∧
    (∀ b, candidatesOfParsed (Json.bool b) = []) ∧
    (∀ n, candidatesOfParsed (Json.num n) = []) ∧
    (∀ s, candidatesOfParsed (Json.str s) = []) ∧
    (∀ (st : Store) (subject : Subject) (image : String) (now : Nat),
      startAnalysis st subject image now [] = (st, .emptyAnalysis)) :=
  ⟨rfl, rfl, fun _ => rfl, fun _ => rfl, fun _ => rfl, fun _ => rfl,
   fun _ => rfl, fun _ _ _ _ => rfl⟩

/-! ## Claim C6 — effective difficulty -/

/-- C6 counterexample: for a candidate with `logicEngine.difficulty = 7`
the claimed effective difficulty is the clamped value 5, but the
detail-view expression evaluates to 7 — the code never clamps. -/
theorem difficulty_claim_counterexample :
    detailDifficulty (mkDiffObj (some 7) none) = Json.num 7 ∧
    specDifficulty (some 7) none = 5 ∧
    Json.num 7 ≠ Json.num 5 := by
  refine ⟨rfl, by decide, fun h => ?_⟩
  rw [Json.num.injEq] at h
  exact absurd h (by decide)

/-- C6 as amended: the detail-view chain takes `logicEngine.difficulty`
when it is defined and non-zero (0 is falsy, so a defined 0 falls
through), else the flat legacy `difficulty` when defined and non-zero,
else 3, with no clamping; `buildShareHtml` instead takes only
`logicEngine.difficulty` when defined and non-zero, else 0 — never the
flat field, never 3. -/
theorem difficulty_chain_amended (leDiff flat : Option Int) :
    detailDifficulty (mkDiffObj leDiff flat) =
      Json.num (amendedDetailDifficulty leDiff flat) ∧
    shareDifficulty (mkDiffObj leDiff flat) =
      Json.num (amendedShareDifficulty leDiff) := by
  rcases leDiff with _ | d <;> rcases flat with _ | f
  · exact ⟨rfl, rfl⟩
  · -- no logicEngine.difficulty, flat difficulty f
    have e1 : ((mkDiffObj none (some f)).getField "logicEngine").bind
        (fun le => le.getField "difficulty") = none := rfl
    have e2 : (mkDiffObj none (some f)).getField "difficulty" =
        some (Json.num f) := rfl
    by_cases hf : f = 0
    · subst hf
      exact ⟨rfl, rfl⟩
    · have hb : (f != 0) = true := by simpa using hf
      simp [detailDifficulty, shareDifficulty, e1, e2, jsOr, Json.truthy, hb,
        amendedDetailDifficulty, amendedShareDifficulty, nonZeroOr, hf]
  · -- logicEngine.difficulty d, no flat difficulty
    have e1 : ((mkDiffObj (some d) none).getField "logicEngine").bind
        (fun le => le.getField "difficulty") = some (Json.num d) := rfl
    have e2 : (mkDiffObj (some d) none).getField "difficulty" = none := rfl
    by_cases hd : d = 0
    · subst hd
      exact ⟨rfl, rfl⟩
    · have hb : (d != 0) = true := by simpa using hd
      simp [detailDifficulty, shareDifficulty, e1, e2, jsOr, Json.truthy, hb,
        amendedDetailDifficulty, amendedShareDifficulty, nonZeroOr, hd]
  · -- both difficulty fields present
    have e1 : ((mkDiffObj (some d) (some f)).getField "logicEngine").bind
        (fun le => le.getField "difficulty") = some (Json.num d) := rfl
    have e2 : (mkDiffObj (some d) (some f)).getField "difficulty" =
        some (Json.num f) := rfl
    by_cases hd : d = 0
    · subst hd
      by_cases hf : f = 0
      · subst hf
        exact ⟨rfl, rfl⟩
      · have e1' : ((mkDiffObj (some 0) (some f)).getField "logicEngine").bind
            (fun le => le.getField "difficulty") = some (Json.num 0) := rfl
        have e2' : (mkDiffObj (some 0) (some f)).getField "difficulty" =
            some (Json.num f) := rfl
        have hb : (f != 0) = true := by simpa using hf
        simp [detailDifficulty, shareDifficulty, e1', e2', jsOr, Json.truthy,
          hb, amendedDetailDifficulty, amendedShareDifficulty, nonZeroOr, hf]
    · have hb : (d != 0) = true := by simpa using hd
      simp [detailDifficulty, shareDifficulty, e1, e2, jsOr, Json.truthy, hb,
        amendedDetailDifficulty, amendedShareDifficulty, nonZeroOr, hd]

/-! ## Claim C7 — malformed import aborts with unchanged store -/

/-- C7: an unparseable import file, or one that parses to anything other
than a sequence, makes the import flow surface the malformed-payload
message and leaves the store exactly as it was (no write is attempted). -/
theorem importData_malformed_aborts :
    (∀ s : Store, importData s none = (s, .malformedPayload)) ∧
    (∀ (s : Store) (j : Json), j.isArr = false →
      importData s (some j) = (s, .malformedPayload)) := by
  refine ⟨fun s => rfl, fun s j h => ?_⟩
  cases j <;> simp_all [importData, importQuestions, Json.isArr]

/-- Witness for C7 at a non-sequence payload. -/
theorem importData_malformed_aborts_witness :
    importData Store.empty (some (Json.obj [])) =
      (Store.empty, .malformedPayload) :=
  importData_malformed_aborts.2 Store.empty (Json.obj []) rfl

/-! ## Claim C10 — the post-processing only touches `logicEngine.mermaidCode` -/

/-- C10: for an object candidate whose `logicEngine` is an object (as the
response schema guarantees) and whose `mermaidCode`, when present, is a
string, the post-processing leaves every top-level field other than
`logicEngine` unchanged — including unknown and legacy fields — and inside
`logicEngine` leaves every field other than `mermaidCode` unchanged, while
`mermaidCode` becomes the sanitized version of the original. -/
theorem postprocess_frame (fields : List (String × Json))
    (_hmc : asStrOpt (((Json.obj fields).getField "logicEngine").bind
        (fun le => le.getField "mermaidCode")) = none →
      ((Json.obj fields).getField "logicEngine").bind
        (fun le => le.getField "mermaidCode") = none) :
    (∀ k, k ≠ "logicEngine" →
      (postprocessCandidate (Json.obj fields)).getField k =
        (Json.obj fields).getField k) ∧
    (∀ lef, (Json.obj fields).getField "logicEngine" = some (Json.obj lef) →
      ∃ lef', (postprocessCandidate (Json.obj fields)).getField "logicEngine" =
          some (Json.obj lef') ∧
        lef'.lookup "mermaidCode" =
          some (Json.str (sanitizeMermaidStr (asStrOpt (lef.lookup "mermaidCode")))) ∧
        (∀ k', k' ≠ "mermaidCode" → lef'.lookup k' = lef.lookup k')) := by
  constructor
  · intro k hk
    have hshape : ∃ x, postprocessCandidate (Json.obj fields) =
        Json.obj (setField fields "logicEngine" x) := ⟨_, rfl⟩
    obtain ⟨x, hshape⟩ := hshape
    rw [hshape]
    simp only [Json.getField]
    exact lookup_setField_ne _ _ _ _ hk
  · intro lef hle
    have hget : (Json.obj fields).getField "logicEngine" =
        some (Json.obj lef) := hle
    refine ⟨setField lef "mermaidCode"
      (Json.str (sanitizeMermaidStr (asStrOpt (lef.lookup "mermaidCode")))),
      ?_, lookup_setField_self _ _ _, fun k' hk' => lookup_setField_ne _ _ _ _ hk'⟩
    show (postprocessCandidate (Json.obj fields)).getField "logicEngine" = _
    simp only [postprocessCandidate, Json.getField] at hget ⊢
    rw [hget]
    simp only [Json.spreadFields, Json.getField]
    exact lookup_setField_self _ _ _

/-- Witness for C10 on a candidate carrying a legacy flat field and a
fenced mermaid code. -/
theorem postprocess_frame_witness :
    (postprocessCandidate exampleCandidate).getField "studentAnswer" =
      some (Json.str "x=2") := by
  have h := postprocess_frame
    [("studentAnswer", Json.str "x=2"),
     ("logicEngine", Json.obj
       [("difficulty", Json.num 4),
        ("mermaidCode", Json.str "```mermaid\nflowchart TD\n```")])]
    (fun habs => by
      have hx : asStrOpt (((Json.obj
          [("studentAnswer", Json.str "x=2"),
           ("logicEngine", Json.obj
             [("difficulty", Json.num 4),
              ("mermaidCode", Json.str "```mermaid\nflowchart TD\n```")])]).getField
            "logicEngine").bind (fun le => le.getField "mermaidCode")) =
          some "```mermaid\nflowchart TD\n```" := rfl
      rw [hx] at habs
      exact Option.noConfusion habs)
  exact (h.1 "studentAnswer" (by decide)).trans rfl

/-! ## Claim C4 — record title precedence -/

theorem jsOr_assoc (a b c : Option Json) :
    jsOr (jsOr a b) c = jsOr a (jsOr b c) := by
  rcases a with _ | j
  · rfl
  · by_cases h : j.truthy <;> simp [jsOr, h]

theorem asStrOpt_map_str (o : Option String) :
    asStrOpt (o.map Json.str) = o := by
  rcases o with _ | s <;> rfl

theorem strChain_getD (l : List (Option String)) (d : String) :
    (strChain l d).getD Json.null = Json.str (firstNonEmpty l d) := by
  induction l with
  | nil => rfl
  | cons o rest ih =>
    rcases o with _ | s
    · simpa [strChain, firstNonEmpty, jsOr] using ih
    · by_cases h : s = "" <;>
        simp [strChain, firstNonEmpty, jsOr, Json.truthy, h, ih]

/-- C4: for every candidate whose title-relevant fields have the shapes
the response schema produces (`knowledgeMap` absent or an object,
`primaryPoint` absent or a string, `tags` absent or an array of strings,
`title` absent or a string), the record title computed by `startAnalysis`
is the first defined non-empty value among `knowledgeMap.primaryPoint`,
`tags[0]` and `title`, else the fixed untitled literal. -/
theorem recordTitle_follows_precedence (a : Json)
    (hkm : a.getField "knowledgeMap" = none ∨
      ∃ kf, a.getField "knowledgeMap" = some (Json.obj kf))
    (hpp : (a.getField "knowledgeMap").bind
        (fun km => km.getField "primaryPoint") = none ∨
      ∃ p, (a.getField "knowledgeMap").bind
        (fun km => km.getField "primaryPoint") = some (Json.str p))
    (htags : a.getField "tags" = none ∨
      ∃ ts : List String, a.getField "tags" = some (Json.arr (ts.map Json.str)))
    (htitle : a.getField "title" = none ∨
      ∃ t, a.getField "title" = some (Json.str t)) :
    recordTitle a = Json.str (specTitle
      (asStrOpt ((a.getField "knowledgeMap").bind
        (fun km => km.getField "primaryPoint")))
      (asStrOpt ((a.getField "tags").bind (fun t => jsIndex t 0)))
      (asStrOpt (a.getField "title"))) := by
  have h1 : jsAnd (a.getField "knowledgeMap")
      ((a.getField "knowledgeMap").bind (fun km => km.getField "primaryPoint")) =
      (asStrOpt ((a.getField "knowledgeMap").bind
        (fun km => km.getField "primaryPoint"))).map Json.str := by
    rcases hkm with hkm | ⟨kf, hkm⟩ <;> rw [hkm]
    · rfl
    · rcases hpp with hpp | ⟨p, hpp⟩ <;> rw [hkm] at hpp
      · have hp : (Json.obj kf).getField "primaryPoint" = none := hpp
        show (Json.obj kf).getField "primaryPoint" =
          (asStrOpt ((Json.obj kf).getField "primaryPoint")).map Json.str
        rw [hp]
        rfl
      · have hp : (Json.obj kf).getField "primaryPoint" =
            some (Json.str p) := hpp
        show (Json.obj kf).getField "primaryPoint" =
          (asStrOpt ((Json.obj kf).getField "primaryPoint")).map Json.str
        rw [hp]
        rfl
  have h2 : jsAnd (a.getField "tags")
      ((a.getField "tags").bind (fun t => jsIndex t 0)) =
      (asStrOpt ((a.getField "tags").bind (fun t => jsIndex t 0))).map Json.str := by
    rcases htags with htg | ⟨ts, htg⟩ <;> rw [htg]
    · rfl
    · rcases ts with _ | ⟨s0, rest⟩
      · rfl
      · simp [jsAnd, jsIndex, asStrOpt, Json.truthy]
  have h3 : a.getField "title" = (asStrOpt (a.getField "title")).map Json.str := by
    rcases htitle with ht | ⟨t, ht⟩ <;> rw [ht] <;> rfl
  show (jsOr (jsOr (jsOr
      (jsAnd (a.getField "knowledgeMap")
        ((a.getField "knowledgeMap").bind (fun km => km.getField "primaryPoint")))
      (jsAnd (a.getField "tags")
        ((a.getField "tags").bind (fun t => jsIndex t 0))))
      (a.getField "title"))
      (some (Json.str "未命名错题"))).getD Json.null = _
  rw [h1, h2, h3, asStrOpt_map_str, jsOr_assoc, jsOr_assoc]
  exact strChain_getD
    [asStrOpt ((a.getField "knowledgeMap").bind
        (fun km => km.getField "primaryPoint")),
     asStrOpt ((a.getField "tags").bind (fun t => jsIndex t 0)),
     asStrOpt (a.getField "title")] "未命名错题"

/-- Witness for C4: a candidate with only tags gets its first tag as
title. -/
theorem recordTitle_follows_precedence_witness :
    recordTitle (Json.obj [("tags", Json.arr [Json.str "三角恒等式"])]) =
      Json.str "三角恒等式" := by
  have h := recordTitle_follows_precedence
    (Json.obj [("tags", Json.arr [Json.str "三角恒等式"])])
    (Or.inl rfl) (Or.inl rfl) (Or.inr ⟨["三角恒等式"], rfl⟩) (Or.inl rfl)
  rw [h]
  rfl

/-! ## Claim C5 — one record per candidate -/

theorem foldl_saveQuestion (mk : Json → WrongQuestion) (analyses : List Json) :
    ∀ s : Store,
      analyses.foldl (fun st a => (saveQuestion st (mk a)).1) s =
        ⟨s.nextId + analyses.length,
         s.records ++ (List.range' s.nextId analyses.length).zip (analyses.map mk)⟩ := by
  induction analyses with
  | nil => intro s; cases s; simp
  | cons a as ih =>
    intro s
    rw [List.foldl_cons, ih]
    simp only [saveQuestion, List.length_cons, List.map_cons, List.range'_succ,
      List.zip_cons_cons, Store.mk.injEq]
    exact ⟨by omega, by simp⟩

/-- C5: when the analysis response carries `n ≥ 1` candidates,
`startAnalysis` appends exactly `n` records to the store — one per
candidate, in order, each under one fresh id — and reports `n` saves. -/
theorem startAnalysis_one_record_per_candidate (s : Store) (subject : Subject)
    (image : String) (now : Nat) (analyses : List Json)
    (h : analyses ≠ []) :
    (startAnalysis s subject image now analyses).1.records =
      s.records ++ (List.range' s.nextId analyses.length).zip
        (analyses.map (mkQuestion subject image now)) ∧
    ((startAnalysis s subject image now analyses).1.records).length =
      s.records.length + analyses.length ∧
    (startAnalysis s subject image now analyses).2 = .saved analyses.length := by
  have hlen : ¬ analyses.length = 0 := by
    simpa [List.length_eq_zero] using h
  unfold startAnalysis
  rw [if_neg hlen]
  rw [foldl_saveQuestion (mkQuestion subject image now) analyses s]
  refine ⟨rfl, ?_, rfl⟩
  simp [List.length_zip, List.length_range']

/-- Witness for C5 with a single minimal candidate. -/
theorem startAnalysis_one_record_per_candidate_witness :
    ((startAnalysis Store.empty .Math "img" 0 [Json.obj []]).1.records).length = 1 := by
  have h := startAnalysis_one_record_per_candidate Store.empty .Math "img" 0
    [Json.obj []] (by simp)
  simpa [Store.empty] using h.2.1

/-! ## Claim C8 — subject query and presentation order -/

/-- C8: the presentation sort in `loadQuestions` always yields the
subject's records ordered by `createdAt` descending (a permutation of what
`getBySubject` returned); in particular, for three Math records saved with
`createdAt` 100, 300, 200, all three come back and are displayed in the
order 300, 200, 100. -/
theorem loadQuestions_sorted_desc :
    (∀ (s : Store) (subject : Subject),
      List.Sorted createdDesc (loadQuestions s subject) ∧
      (loadQuestions s subject).Perm (getQuestionsBySubject s subject)) ∧
    (loadQuestions exampleStore .Math).map (fun q => q.createdAt) =
      [300, 200, 100] ∧
    (getQuestionsBySubject exampleStore .Math).length = 3 := by
  refine ⟨fun s subject =>
    ⟨List.sorted_insertionSort createdDesc _,
     List.perm_insertionSort createdDesc _⟩, ?_, ?_⟩ <;> decide

/-! ## Claim C9 — id monotonicity across saves and deletions -/

theorem runOps_ids_lowerBound (ops : List StoreOp) :
    ∀ (s : Store) (i : Nat), i ∈ (runOps s ops).2 → s.nextId ≤ i := by
  induction ops with
  | nil =>
    intro s i h
    simp [runOps] at h
  | cons op ops ih =>
    intro s i h
    cases op with
    | save q =>
      simp only [runOps, runOp, saveQuestion, Option.toList_some,
        List.cons_append, List.nil_append, List.mem_cons] at h
      rcases h with h | h
      · omega
      · have := ih _ _ h
        simp only [saveQuestion] at this
        omega
    | deleteById j =>
      simp only [runOps, runOp, Option.toList_none, List.nil_append] at h
      have := ih _ _ h
      simpa [deleteQuestion] using this

/-- C9: over any trace of saves and deletions (no clear), the ids handed
out by the saves are pairwise strictly increasing — so they never repeat,
and a deleted id is never reused. -/
theorem savedIds_strictly_increasing (s : Store) (ops : List StoreOp) :
    List.Pairwise (fun i j => i < j) (savedIds s ops) := by
  induction ops generalizing s with
  | nil => simp [savedIds, runOps]
  | cons op ops ih =>
    cases op with
    | save q =>
      have hrest := ih (s := ⟨s.nextId + 1, s.records ++ [(s.nextId, q)]⟩)
      have hshape : savedIds s (.save q :: ops) =
          s.nextId :: savedIds ⟨s.nextId + 1, s.records ++ [(s.nextId, q)]⟩ ops := by
        simp [savedIds, runOps, runOp, saveQuestion]
      rw [hshape]
      refine List.Pairwise.cons (fun i hi => ?_) hrest
      have := runOps_ids_lowerBound ops ⟨s.nextId + 1, s.records ++ [(s.nextId, q)]⟩ i hi
      simp only at this
      omega
    | deleteById j =>
      have hshape : savedIds s (.deleteById j :: ops) =
          savedIds (deleteQuestion s j) ops := by
        simp [savedIds, runOps, runOp]
      rw [hshape]
      exact ih (s := deleteQuestion s j)

end ErrorRecordBook
